import Mathlib

set_option maxRecDepth 40000

/-! Verification of the cache transfer engine (`cacheHttpClient.ts`).

Shallow embedding of the cache HTTP client of this repository
(`src/packages/cache/src/internal/cacheHttpClient.ts`) and proofs about it.

Machine integers are modelled as `Nat` with explicit reduction modulo `2^32`
where the SHA-256 rounds overflow.  Network and filesystem effects are
modelled by passing the responses the environment would deliver as explicit
arguments, and by returning the list of observable actions (download
strategies executed, chunk uploads issued, commits issued, secrets
registered) next to the result.  Fallible code returns `Except`.
-/

/-! ## SHA-256 (the `crypto.createHash('sha256') … digest('hex')` primitive)

`getCacheVersion` feeds a '|'-joined string to Node's SHA-256 and prints the
digest as lowercase hex.  The primitive is embedded executably below, on
`Nat` with explicit `% 2^32`. -/

/-- Reduce modulo `2^32` (JS/Node hash arithmetic is on 32-bit words). -/
def u32 (n : Nat) : Nat := n % 4294967296

/-- Rotate a 32-bit word right by `n` bits. -/
def rotr32 (n x : Nat) : Nat := u32 ((x >>> n) ||| (x <<< (32 - n)))

/-- Bitwise complement inside 32 bits. -/
def not32 (x : Nat) : Nat := 4294967295 ^^^ x

/-- SHA-256 `Ch(x,y,z)`. -/
def chFn (x y z : Nat) : Nat := (x &&& y) ^^^ (not32 x &&& z)

/-- SHA-256 `Maj(x,y,z)`. -/
def majFn (x y z : Nat) : Nat := (x &&& y) ^^^ (x &&& z) ^^^ (y &&& z)

/-- SHA-256 big sigma 0. -/
def bigSigma0 (x : Nat) : Nat := rotr32 2 x ^^^ rotr32 13 x ^^^ rotr32 22 x

/-- SHA-256 big sigma 1. -/
def bigSigma1 (x : Nat) : Nat := rotr32 6 x ^^^ rotr32 11 x ^^^ rotr32 25 x

/-- SHA-256 small sigma 0. -/
def smallSigma0 (x : Nat) : Nat := rotr32 7 x ^^^ rotr32 18 x ^^^ (x >>> 3)

/-- SHA-256 small sigma 1. -/
def smallSigma1 (x : Nat) : Nat := rotr32 17 x ^^^ rotr32 19 x ^^^ (x >>> 10)

/-- The 64 SHA-256 round constants. -/
def sha256K : Array Nat := #[
  1116352408, 1899447441, 3049323471, 3921009573,
  961987163, 1508970993, 2453635748, 2870763221,
  3624381080, 310598401, 607225278, 1426881987,
  1925078388, 2162078206, 2614888103, 3248222580,
  3835390401, 4022224774, 264347078, 604807628,
  770255983, 1249150122, 1555081692, 1996064986,
  2554220882, 2821834349, 2952996808, 3210313671,
  3336571891, 3584528711, 113926993, 338241895,
  666307205, 773529912, 1294757372, 1396182291,
  1695183700, 1986661051, 2177026350, 2456956037,
  2730485921, 2820302411, 3259730800, 3345764771,
  3516065817, 3600352804, 4094571909, 275423344,
  430227734, 506948616, 659060556, 883997877,
  958139571, 1322822218, 1537002063, 1747873779,
  1955562222, 2024104815, 2227730452, 2361852424,
  2428436474, 2756734187, 3204031479, 3329325298]

/-- Working state of the SHA-256 compression function (eight 32-bit words). -/
structure Sha256State where
  sa : Nat
  sb : Nat
  sc : Nat
  sd : Nat
  se : Nat
  sf : Nat
  sg : Nat
  sh : Nat
deriving DecidableEq, Repr

/-- The SHA-256 initial hash value. -/
def sha256Init : Sha256State :=
  ⟨1779033703, 3144134277, 1013904242, 2773480762,
   1359893119, 2600822924, 528734635, 1541459225⟩

/-- One SHA-256 round. -/
def sha256Round (s : Sha256State) (kw wv : Nat) : Sha256State :=
  let t1 := u32 (s.sh + bigSigma1 s.se + chFn s.se s.sf s.sg + kw + wv)
  let t2 := u32 (bigSigma0 s.sa + majFn s.sa s.sb s.sc)
  ⟨u32 (t1 + t2), s.sa, s.sb, s.sc, u32 (s.sd + t1), s.se, s.sf, s.sg⟩

/-- Pack big-endian groups of four bytes into 32-bit words. -/
def bytesToWords : List Nat → Array Nat
  | b0 :: b1 :: b2 :: b3 :: rest =>
    #[b0 * 16777216 + b1 * 65536 + b2 * 256 + b3] ++ bytesToWords rest
  | _ => #[]

/-- Extend the 16 words of a block to the 64-entry message schedule. -/
def sha256Schedule (w0 : Array Nat) : Array Nat :=
  (List.range 48).foldl
    (fun w i =>
      let t := i + 16
      w.push (u32 (smallSigma1 (w.getD (t - 2) 0) + w.getD (t - 7) 0 +
        smallSigma0 (w.getD (t - 15) 0) + w.getD (t - 16) 0)))
    w0

/-- Compress one 64-byte block into the running hash state. -/
def sha256Block (h : Sha256State) (block : List Nat) : Sha256State :=
  let w := sha256Schedule (bytesToWords block)
  let s := (List.range 64).foldl
    (fun s i => sha256Round s (sha256K.getD i 0) (w.getD i 0)) h
  ⟨u32 (h.sa + s.sa), u32 (h.sb + s.sb), u32 (h.sc + s.sc), u32 (h.sd + s.sd),
   u32 (h.se + s.se), u32 (h.sf + s.sf), u32 (h.sg + s.sg), u32 (h.sh + s.sh)⟩

/-- Big-endian byte expansion of `n` on `k` bytes. -/
def beBytes : Nat → Nat → List Nat
  | 0, _ => []
  | k + 1, n => beBytes k (n / 256) ++ [n % 256]

/-- SHA-256 padding: append `0x80`, zeros, and the 64-bit bit length. -/
def sha256Pad (msg : List Nat) : List Nat :=
  msg ++ [0x80] ++ List.replicate ((119 - msg.length % 64) % 64) 0 ++
    beBytes 8 (8 * msg.length)

/-- Split a byte list into 64-byte blocks (fuel-driven, structurally
recursive so concrete hashes evaluate in the kernel). -/
def toBlocksGo : Nat → List Nat → List (List Nat)
  | 0, _ => []
  | _, [] => []
  | fuel + 1, bs => bs.take 64 :: toBlocksGo fuel (bs.drop 64)

/-- Split a byte list into 64-byte blocks. -/
def toBlocks (bs : List Nat) : List (List Nat) := toBlocksGo bs.length bs

/-- UTF-8 encoding of one character, as byte values. -/
def utf8EncodeChar (c : Char) : List Nat :=
  let n := c.toNat
  if n < 128 then [n]
  else if n < 2048 then [192 + n / 64, 128 + n % 64]
  else if n < 65536 then [224 + n / 4096, 128 + n / 64 % 64, 128 + n % 64]
  else [240 + n / 262144, 128 + n / 4096 % 64, 128 + n / 64 % 64, 128 + n % 64]

/-- UTF-8 bytes of a string. -/
def utf8Bytes (s : String) : List Nat :=
  (s.data.map utf8EncodeChar).flatten

/-- A lowercase hex digit. -/
def hexDigit (n : Nat) : Char :=
  if n < 10 then Char.ofNat (48 + n) else Char.ofNat (87 + n)

/-- A 32-bit word as eight lowercase hex digits. -/
def wordToHex (n : Nat) : String :=
  String.mk ((List.range 8).map (fun i => hexDigit ((n >>> (28 - 4 * i)) % 16)))

/-- Lowercase-hex SHA-256 digest of the UTF-8 bytes of a string: the model of
`crypto.createHash('sha256').update(s).digest('hex')`. -/
def sha256Hex (s : String) : String :=
  let final := (toBlocks (sha256Pad (utf8Bytes s))).foldl sha256Block sha256Init
  String.join ([final.sa, final.sb, final.sc, final.sd,
    final.se, final.sf, final.sg, final.sh].map wordToHex)

/-! ## Version fingerprint (`getCacheVersion`) -/

/-- Compression methods.  Modelled from the spec: `constants.ts` is not in
the sources; the spec fixes `gzip` as the implicit default token and the
zstd variants as the alternatives. -/
inductive CompressionMethod where
  | gzip
  | zstdWithoutLong
  | zstd
deriving DecidableEq, Repr

/-- The string value of a compression-method enum member. -/
def CompressionMethod.token : CompressionMethod → String
  | .gzip => "gzip"
  | .zstdWithoutLong => "zstd-without-long"
  | .zstd => "zstd"

/-- `const versionSalt = '1.0'`. -/
def versionSalt : String := "1.0"

/-- The component list `getCacheVersion` joins: the paths, then the
compression method unless it is absent or the `gzip` default
(`!compressionMethod || compressionMethod === CompressionMethod.Gzip`),
then the salt pushed at the end. -/
def versionComponents (paths : List String)
    (compressionMethod : Option CompressionMethod) : List String :=
  (paths ++
    match compressionMethod with
    | none => []
    | some c => if c = CompressionMethod.gzip then [] else [c.token]) ++
  [versionSalt]

/-- `getCacheVersion`: SHA-256 hex digest of the '|'-joined components. -/
def getCacheVersion (paths : List String)
    (compressionMethod : Option CompressionMethod) : String :=
  sha256Hex (String.intercalate "|" (versionComponents paths compressionMethod))

/-- The version computation as §4.1 of the spec words it (component list =
paths, then the compression token iff it is given and differs from the
default, then a fixed salt literal; '|'-join; lowercase-hex SHA-256 of the
UTF-8 bytes).  Stated separately from `getCacheVersion` so the code can be
proved to refine the spec's wording. -/
def specComputeVersion (paths : List String)
    (compressionMethod : Option CompressionMethod) : String :=
  let tokenPart :=
    match compressionMethod with
    | none => []
    | some c => if c = CompressionMethod.gzip then [] else [c.token]
  sha256Hex (String.intercalate "|" (paths ++ tokenPart ++ [versionSalt]))

/-! ## Data model (`contracts.d.ts` shapes used by the client) -/

/-- An artifact cache entry as the client reads it: `cacheKey`,
`archiveLocation` and `creationTime` are all optional in the contract. -/
structure ArtifactCacheEntry where
  cacheKey : Option String := none
  archiveLocation : Option String := none
  creationTime : Option String := none
deriving DecidableEq, Repr

/-- One blob of a storage-container flat listing, reduced to the two fields
`getCacheEntryBlob` reads: its name and its last-modified time (already
rendered as the ISO string `toISOString` would produce). -/
structure BlobItem where
  name : String
  lastModified : String
deriving DecidableEq, Repr

/-- JavaScript truthiness of an optional string parameter
(`undefined` and `''` are falsy). -/
def strTruthy : Option String → Bool
  | none => false
  | some s => !s.isEmpty

/-- `isSuccessStatusCode` of `requestUtils.ts`.  Modelled from the spec:
that file is not in the sources; the spec's error taxonomy treats exactly
the 2xx statuses as success. -/
def isSuccessStatusCode (statusCode : Nat) : Bool :=
  200 ≤ statusCode && statusCode < 300

/-! ## Direct-storage lookup (`getCacheEntryBlob`) -/

/-- The `for await (const blob of blobList)` loop of `getCacheEntryBlob`:
for each blob in listing order, return a primary-key entry if its name is
the primary key, else a fallback entry if its name equals one of the
remaining keys, else continue. -/
def getCacheEntryBlobGo (primaryKey : Option String)
    (notPrimaryKey : List String) : List BlobItem → Option ArtifactCacheEntry
  | [] => none
  | blob :: rest =>
    if primaryKey = some blob.name then
      some { cacheKey := primaryKey, creationTime := some blob.lastModified }
    else if notPrimaryKey.contains blob.name then
      some { cacheKey := some blob.name, creationTime := some blob.lastModified }
    else getCacheEntryBlobGo primaryKey notPrimaryKey rest

/-- `getCacheEntryBlob`, with the container listing passed explicitly (the
storage service is external).  `keys[0]` on an empty list is `undefined` in
the source, so the primary key is an `Option`; the `paths` parameter of the
source is accepted and, as in the source, never read. -/
def getCacheEntryBlob (keys : List String) (paths : List String)
    (blobListing : List BlobItem) : Option ArtifactCacheEntry :=
  getCacheEntryBlobGo keys.head? keys.tail blobListing

/-! ## HTTP lookup (`getCacheEntry`) -/

/-- A typed response of the cache service to the entry lookup. -/
structure TypedResponseEntry where
  statusCode : Nat
  result : Option ArtifactCacheEntry
deriving DecidableEq, Repr

/-- Observable side effects of the lookup (the debug logging of the source
is omitted; only the secret registration matters to the claims). -/
inductive Effect where
  | setSecret (value : String)
deriving DecidableEq, Repr

/-- JavaScript falsiness of the `cacheResult?.archiveLocation` access
(`undefined` — via a missing result or a missing field — and `''`). -/
def archiveLocationFalsy (result : Option ArtifactCacheEntry) : Bool :=
  match result.bind ArtifactCacheEntry.archiveLocation with
  | none => true
  | some s => s.isEmpty

/-- The response handling of `getCacheEntry`'s HTTP path: 204 is a null
result; any other non-success status throws; a success response with a
falsy `archiveLocation` throws `Cache not found.`; otherwise the download
URL is registered as a secret and the entry returned. -/
def processGetCacheEntryResponse (response : TypedResponseEntry) :
    Except String (Option ArtifactCacheEntry × List Effect) :=
  if response.statusCode = 204 then
    Except.ok (none, [])
  else if !isSuccessStatusCode response.statusCode then
    Except.error ("Cache service responded with " ++ toString response.statusCode)
  else if archiveLocationFalsy response.result then
    Except.error "Cache not found."
  else
    match response.result.bind ArtifactCacheEntry.archiveLocation with
    | some url => Except.ok (response.result, [Effect.setSecret url])
    | none => Except.error "Cache not found."

/-- `getCacheEntry`: with a truthy blob container name and connection
string it answers from the storage listing; otherwise it issues the HTTP
lookup, whose request carries the keys and the computed version — the
cache service is modelled as the function `transport` from those request
parameters to the typed response. -/
def getCacheEntry (keys paths : List String)
    (compressionMethod : Option CompressionMethod)
    (blobContainerName connectionString : Option String)
    (blobListing : List BlobItem)
    (transport : List String → String → TypedResponseEntry) :
    Except String (Option ArtifactCacheEntry × List Effect) :=
  if strTruthy blobContainerName && strTruthy connectionString then
    Except.ok (getCacheEntryBlob keys paths blobListing, [])
  else
    processGetCacheEntryResponse
      (transport keys (getCacheVersion paths compressionMethod))

/-! ## Download engine (`downloadCache`) -/

/-- The three download strategies, as observable actions. -/
inductive DownloadAction where
  | storageSDK (archiveLocation : String) (archivePath : String)
  | blobStorage (cacheKey : String) (archivePath : String)
  | httpClient (archiveLocation : String) (archivePath : String)
deriving DecidableEq, Repr

/-- ASCII lowercasing of one character (WHATWG URL hostnames come out
lowercased). -/
def lowerChar (c : Char) : Char :=
  if 65 ≤ c.toNat && c.toNat ≤ 90 then Char.ofNat (c.toNat + 32) else c

/-- Drop everything through the first `://` scheme separator, when one is
present. -/
def dropScheme : List Char → Option (List Char)
  | ':' :: '/' :: '/' :: rest => some rest
  | _ :: rest => dropScheme rest
  | [] => none

/-- The hostname of a URL as WHATWG `new URL(u).hostname` yields it for the
URLs this client handles: the part after the scheme separator, up to the
first `/`, `?`, `#` or port `:`, lowercased. -/
def urlHostname (u : String) : String :=
  let afterScheme :=
    match dropScheme u.data with
    | some rest => rest
    | none => u.data
  let hostPort := afterScheme.takeWhile (fun c => c ≠ '/' && c ≠ '?' && c ≠ '#')
  String.mk ((hostPort.takeWhile (fun c => c ≠ ':')).map lowerChar)

/-- Whether `s` ends with `suffix` (the `String.endsWith` test of the
source, restated on the character lists so it evaluates by reduction). -/
def strEndsWith (s suffix : String) : Bool :=
  suffix.data.isSuffixOf s.data

/-- `downloadCache`, returning the download strategies it executes, in
order.  The source substitutes `https://NoArchiveLocationFound.com` for a
nullish `archiveLocation`, then runs the Azure-SDK strategy under a plain
`if` (its resolved `useAzureSdk` option passed here directly), and the
blob-by-key versus generic-HTTP strategies under a separate `if`/`else`. -/
def downloadCache (cacheEntry : ArtifactCacheEntry) (archivePath : String)
    (useAzureSdk : Bool)
    (blobContainerName connectionString : Option String) :
    List DownloadAction :=
  let archiveLocation :=
    cacheEntry.archiveLocation.getD "https://NoArchiveLocationFound.com"
  let sdkPart :=
    if useAzureSdk &&
        strEndsWith (urlHostname archiveLocation) ".blob.core.windows.net" then
      [DownloadAction.storageSDK archiveLocation archivePath]
    else []
  let blobOrHttp :=
    if strTruthy blobContainerName && strTruthy connectionString &&
        strTruthy cacheEntry.cacheKey then
      [DownloadAction.blobStorage (cacheEntry.cacheKey.getD "") archivePath]
    else [DownloadAction.httpClient archiveLocation archivePath]
  sdkPart ++ blobOrHttp

/-! ## Reservation (`reserveCache`) -/

/-- The body of a reserve response (`cacheId` may be absent). -/
structure ReserveCacheResult where
  cacheId : Option Nat
deriving DecidableEq, Repr

/-- A typed reserve response as `ITypedResponseWithError` delivers it. -/
structure TypedReserveResponse where
  statusCode : Nat
  result : Option ReserveCacheResult
deriving DecidableEq, Repr

/-- `reserveCache`: with a truthy blob configuration it short-circuits to a
synthetic `{statusCode: 0, result: null}` response; otherwise it posts the
key, the computed version and the optional cache size, and hands back
whatever typed response the retrying transport delivers, uninspected.  The
transport (`retryTypedResponse`, not among the sources) may itself fail,
hence its `Except` result, which `reserveCache` simply propagates. -/
def reserveCache (key : String) (paths : List String)
    (compressionMethod : Option CompressionMethod) (cacheSize : Option Nat)
    (blobContainerName connectionString : Option String)
    (transport : String → String → Option Nat →
      Except String TypedReserveResponse) :
    Except String TypedReserveResponse :=
  if strTruthy blobContainerName && strTruthy connectionString then
    Except.ok { statusCode := 0, result := none }
  else
    transport key (getCacheVersion paths compressionMethod) cacheSize

/-! ## Chunked upload (`uploadFile`) and save (`saveCache`) -/

/-- The chunking loop of `uploadFile`: while `offset < fileSize`, emit the
inclusive range `[offset, offset + min(fileSize - offset, maxChunkSize) - 1]`
and advance `offset` by `maxChunkSize`.  Fuel-driven so it is structurally
recursive; `fileSize` steps suffice whenever `maxChunkSize > 0`, since each
step advances the offset by at least one byte. -/
def chunkRangesGo : Nat → Nat → Nat → Nat → List (Nat × Nat)
  | 0, _, _, _ => []
  | fuel + 1, fileSize, maxChunkSize, offset =>
    if offset < fileSize then
      (offset, offset + min (fileSize - offset) maxChunkSize - 1) ::
        chunkRangesGo fuel fileSize maxChunkSize (offset + maxChunkSize)
    else []

/-- The inclusive byte ranges of the chunk uploads `uploadFile` issues for
a file of `fileSize` bytes under chunk size `maxChunkSize`. -/
def chunkRanges (fileSize maxChunkSize : Nat) : List (Nat × Nat) :=
  chunkRangesGo fileSize fileSize maxChunkSize 0

/-- Observable network calls of a save: chunk uploads (with the status the
service answered after retries), the whole-file blob upload, and the
commit. -/
inductive CacheEvent where
  | chunkUpload (start fin statusCode : Nat)
  | blobUpload (key : String)
  | commit (size statusCode : Nat)
deriving DecidableEq, Repr

/-- Run the chunk uploads over the given ranges: each issued chunk records
the status the service answered (the environment `chunkStatus`, indexed by
chunk number, models the post-retry outcome); `uploadChunk` throws on the
first non-success status, which stops further chunk work. -/
def runChunkUploads (chunkStatus : Nat → Nat) :
    List (Nat × Nat) → Nat → List CacheEvent × Except String Unit
  | [], _ => ([], Except.ok ())
  | (s, e) :: rest, i =>
    let st := chunkStatus i
    if isSuccessStatusCode st then
      let out := runChunkUploads chunkStatus rest (i + 1)
      (CacheEvent.chunkUpload s e st :: out.1, out.2)
    else
      ([CacheEvent.chunkUpload s e st],
       Except.error ("Cache service responded with " ++ toString st ++
         " during upload chunk."))

/-- `uploadFile`: with a truthy blob configuration the whole file goes to
the block-blob client (whose success or failure is the environment
`blobResult`); otherwise the chunk ranges are uploaded. -/
def uploadFileRun (fileSize maxChunkSize : Nat) (chunkStatus : Nat → Nat)
    (key : String) (blobContainerName connectionString : Option String)
    (blobResult : Except String Unit) : List CacheEvent × Except String Unit :=
  if strTruthy blobContainerName && strTruthy connectionString then
    ([CacheEvent.blobUpload key], blobResult)
  else
    runChunkUploads chunkStatus (chunkRanges fileSize maxChunkSize) 0

/-- `saveCache`: upload the file, and only if that returned normally issue
the commit (whose status the environment `commitStatus` answers); a
non-success commit status throws. -/
def saveCacheRun (fileSize maxChunkSize : Nat) (chunkStatus : Nat → Nat)
    (commitStatus : Nat) (key : String)
    (blobContainerName connectionString : Option String)
    (blobResult : Except String Unit) : List CacheEvent × Except String Unit :=
  let up := uploadFileRun fileSize maxChunkSize chunkStatus key
    blobContainerName connectionString blobResult
  match up.2 with
  | Except.error e => (up.1, Except.error e)
  | Except.ok _ =>
    let evs := up.1 ++ [CacheEvent.commit fileSize commitStatus]
    if isSuccessStatusCode commitStatus then (evs, Except.ok ())
    else
      (evs, Except.error ("Cache service responded with " ++
        toString commitStatus ++ " during commit cache."))

theorem sha256Hex_abc :
    sha256Hex "abc" =
      "ba7816bf8f01cfea414140de5dae2223b00361a396177a9cb410ff61f20015ad" := by
  decide

/-! ## Helper lemmas -/

/-- `getCacheEntryBlobGo` returns the first listed blob satisfying the
combined primary-or-fallback test. -/
theorem getCacheEntryBlobGo_eq_find (pk : Option String) (fb : List String)
    (blobs : List BlobItem) :
    getCacheEntryBlobGo pk fb blobs =
      (blobs.find? (fun b => pk == some b.name || fb.contains b.name)).map
        (fun b => { cacheKey := some b.name, archiveLocation := none,
                    creationTime := some b.lastModified }) := by
  induction blobs with
  | nil => rfl
  | cons b bs ih =>
    by_cases hpk : pk = some b.name
    · simp [getCacheEntryBlobGo, List.find?, hpk]
    · have hbeq : (pk == some b.name) = false := by simp [hpk]
      by_cases hfb : b.name ∈ fb
      · simp [getCacheEntryBlobGo, List.find?, hpk, hfb, hbeq]
      · have hdec : fb.contains b.name = false := by simpa using hfb
        simp [getCacheEntryBlobGo, List.find?, hpk, hfb, hbeq, hdec, ih]

/-! ## Claim theorems -/

/-- C5: `getCacheVersion(P, m)` is the lowercase-hex SHA-256 digest of the
UTF-8 bytes of the '|'-joined component list — the paths, then the
compression token iff `m` is given and differs from the `gzip` default
(so `getCacheVersion P gzip = getCacheVersion P none` and the token is
omitted), then the fixed salt literal `1.0` — exactly as the spec words it;
as a Lean function it is deterministic by construction. -/
theorem getCacheVersion_refines_spec (paths : List String)
    (m : Option CompressionMethod) :
    getCacheVersion paths m = specComputeVersion paths m
    ∧ getCacheVersion paths (some CompressionMethod.gzip)
        = getCacheVersion paths none := by
  refine ⟨?_, rfl⟩
  simp only [getCacheVersion, specComputeVersion, versionComponents,
    List.append_assoc]

/-- C4 counterexample: two different path lists whose '|'-joined component
strings coincide receive the same version, so the claimed inequality for
all differing path lists fails. -/
theorem getCacheVersion_separator_collision :
    (["a|b"] : List String) ≠ ["a", "b"]
    ∧ getCacheVersion ["a|b"] none = getCacheVersion ["a", "b"] none := by
  exact ⟨by decide, rfl⟩

/-- C4 (amended): the version is a function of the '|'-joined component
string alone — path lists with equal joined components (such as `["a|b"]`
and `["a","b"]`) share a version, so distinctness of the lists does not
force distinct versions; concretely, the differently-ordered lists
`["a","b"]` and `["b","a"]` do get different versions. -/
theorem getCacheVersion_joined_string_determines :
    (∀ (p1 p2 : List String) (m1 m2 : Option CompressionMethod),
      String.intercalate "|" (versionComponents p1 m1) =
        String.intercalate "|" (versionComponents p2 m2) →
      getCacheVersion p1 m1 = getCacheVersion p2 m2)
    ∧ getCacheVersion ["a", "b"] none ≠ getCacheVersion ["b", "a"] none := by
  constructor
  · intro p1 p2 m1 m2 h
    unfold getCacheVersion
    rw [h]
  · decide

/-- C4 witness: the congruence applied at the concrete separator-carrying
path lists. -/
theorem getCacheVersion_joined_string_determines_witness :
    String.intercalate "|" (versionComponents ["a|b"] none) =
      String.intercalate "|" (versionComponents ["a", "b"] none)
    ∧ getCacheVersion ["a|b"] none = getCacheVersion ["a", "b"] none :=
  ⟨rfl, getCacheVersion_joined_string_determines.1 ["a|b"] ["a", "b"] none none rfl⟩

/-- C2 counterexample: with keys `["A", "B"]` and a listing holding a blob
for the fallback key before a blob for the primary key, `getCacheEntryBlob`
returns the fallback entry even though a primary-key blob is present, and
reversing the listing changes the answer — the lookup is listing-order
dependent, not primary-key-first. -/
theorem getCacheEntryBlob_listing_order_counterexample :
    getCacheEntryBlob ["A", "B"] [] [⟨"B", "t1"⟩, ⟨"A", "t2"⟩] =
      some { cacheKey := some "B", archiveLocation := none,
             creationTime := some "t1" }
    ∧ getCacheEntryBlob ["A", "B"] [] [⟨"A", "t2"⟩, ⟨"B", "t1"⟩] =
      some { cacheKey := some "A", archiveLocation := none,
             creationTime := some "t2" } := by
  exact ⟨rfl, rfl⟩

/-- C2 (amended): the direct-storage lookup returns the entry of the first
blob in listing-enumeration order whose name equals any of the keys (for
each single blob the primary key is tested before the fallbacks, which
never matters since a blob has one name), and null when no blob name
equals any key; among keys it is the listing order, not the caller's
priority order, that decides. -/
theorem getCacheEntryBlob_first_listed_match (keys paths : List String)
    (blobListing : List BlobItem) :
    getCacheEntryBlob keys paths blobListing =
      (blobListing.find? (fun b => keys.contains b.name)).map
        (fun b => { cacheKey := some b.name, archiveLocation := none,
                    creationTime := some b.lastModified }) := by
  induction blobListing with
  | nil => rfl
  | cons b bs ih =>
    by_cases hp : keys.head? = some b.name
    · have hc : b.name ∈ keys := by
        cases keys with
        | nil => simp at hp
        | cons k ks =>
          simp only [List.head?_cons, Option.some.injEq] at hp
          subst hp
          exact List.mem_cons_self _ _
      simp [getCacheEntryBlob, getCacheEntryBlobGo, hp, List.find?, hc]
    · by_cases hf : b.name ∈ keys.tail
      · have hc : b.name ∈ keys := by
          cases keys with
          | nil => simp at hf
          | cons k ks => exact List.mem_cons_of_mem _ hf
        simp [getCacheEntryBlob, getCacheEntryBlobGo, hp, hf, List.find?, hc]
      · have hnc : ¬ b.name ∈ keys := by
          cases keys with
          | nil => simp
          | cons k ks =>
            intro hmem
            rcases List.mem_cons.mp hmem with h | h
            · exact hp (by simp [h])
            · exact hf h
        simpa [getCacheEntryBlob, getCacheEntryBlobGo, hp, hf, List.find?, hnc]
          using ih

/-- C1: concrete evaluation showing two download strategies executing
back-to-back on one `downloadCache` call — with SDK downloads enabled, an
archive location on the managed blob-storage domain, and a blob-storage
configuration supplied, the Azure-storage-SDK download runs and then the
direct blob-storage download runs as well, because the source guards the
SDK strategy with a plain `if` that does not exclude the following
`if`/`else`. -/
theorem downloadCache_runs_two_strategies :
    downloadCache
      { cacheKey := some "key",
        archiveLocation := some "https://acct.blob.core.windows.net/c/b",
        creationTime := none }
      "/tmp/archive.tzst" true (some "cont") (some "conn") =
      [DownloadAction.storageSDK "https://acct.blob.core.windows.net/c/b"
         "/tmp/archive.tzst",
       DownloadAction.blobStorage "key" "/tmp/archive.tzst"] := by
  decide

/-- C10: when the entry carries no archive location, `downloadCache` does
not fail: it substitutes the placeholder `https://NoArchiveLocationFound.com`
and proceeds with strategy selection — the SDK strategy can never fire on
the placeholder host (whatever `useAzureSdk` is), so the call performs the
blob-storage download when that configuration is truthy and otherwise the
generic HTTP download against the placeholder URL. -/
theorem downloadCache_placeholder_archive_location
    (cacheEntry : ArtifactCacheEntry) (archivePath : String)
    (useAzureSdk : Bool) (blobContainerName connectionString : Option String)
    (hloc : cacheEntry.archiveLocation = none) :
    downloadCache cacheEntry archivePath useAzureSdk blobContainerName
        connectionString =
      (if strTruthy blobContainerName && strTruthy connectionString &&
          strTruthy cacheEntry.cacheKey then
        [DownloadAction.blobStorage (cacheEntry.cacheKey.getD "") archivePath]
      else
        [DownloadAction.httpClient "https://NoArchiveLocationFound.com"
          archivePath]) := by
  unfold downloadCache
  rw [hloc]
  have hhost : strEndsWith (urlHostname "https://NoArchiveLocationFound.com")
      ".blob.core.windows.net" = false := by decide
  simp [hhost]

/-- C10 witness: the theorem applied to an entry with no archive location
and no blob-storage configuration. -/
theorem downloadCache_placeholder_archive_location_witness :
    ((⟨none, none, none⟩ : ArtifactCacheEntry).archiveLocation = none)
    ∧ downloadCache ⟨none, none, none⟩ "/tmp/archive.tzst" true none none =
      (if strTruthy none && strTruthy none &&
          strTruthy (⟨none, none, none⟩ : ArtifactCacheEntry).cacheKey then
        [DownloadAction.blobStorage
          ((⟨none, none, none⟩ : ArtifactCacheEntry).cacheKey.getD "")
          "/tmp/archive.tzst"]
      else
        [DownloadAction.httpClient "https://NoArchiveLocationFound.com"
          "/tmp/archive.tzst"]) :=
  ⟨rfl, downloadCache_placeholder_archive_location _ _ true none none rfl⟩

/-- C8: `reserveCache` hands every typed response of the retrying transport
back to its caller unraised, whatever its status code — in particular a
non-success or conflict response produces no error, leaving the caller to
read the absence of a `cacheId` as "skip the upload" — and with a truthy
blob-storage configuration it short-circuits to the synthetic
`{statusCode: 0, result: null}` response without any network call. -/
theorem reserveCache_returns_response_unraised (key : String)
    (paths : List String) (compressionMethod : Option CompressionMethod)
    (cacheSize : Option Nat) (blobContainerName connectionString : Option String)
    (transport : String → String → Option Nat →
      Except String TypedReserveResponse)
    (r : TypedReserveResponse)
    (htr : transport key (getCacheVersion paths compressionMethod) cacheSize
      = Except.ok r) :
    ((strTruthy blobContainerName && strTruthy connectionString) = false →
      reserveCache key paths compressionMethod cacheSize blobContainerName
        connectionString transport = Except.ok r)
    ∧ ((strTruthy blobContainerName && strTruthy connectionString) = true →
      reserveCache key paths compressionMethod cacheSize blobContainerName
        connectionString transport =
        Except.ok { statusCode := 0, result := none }) := by
  constructor
  · intro hcfg
    simp [reserveCache, hcfg, htr]
  · intro hcfg
    simp [reserveCache, hcfg]

/-- C8 witness: a conflict-style 409 response with no `cacheId` is returned
to the caller as-is, unraised. -/
theorem reserveCache_returns_response_unraised_witness :
    reserveCache "key" ["/p"] none none none none
        (fun _ _ _ => Except.ok { statusCode := 409, result := none }) =
      Except.ok { statusCode := 409, result := none } :=
  (reserveCache_returns_response_unraised "key" ["/p"] none none none none
    (fun _ _ _ => Except.ok { statusCode := 409, result := none })
    { statusCode := 409, result := none } rfl).1 rfl

/-- C9: with a truthy blob container name and connection string,
`getCacheEntry` answers from the storage listing alone — its result is the
same for any two `paths` arguments (no cache version enters the lookup, so
the version-isolation mechanism does not apply on this path), and the
effect list of the answer contains no secret registration. -/
theorem getCacheEntry_blob_path_ignores_paths (keys p1 p2 : List String)
    (compressionMethod : Option CompressionMethod)
    (blobContainerName connectionString : Option String)
    (blobListing : List BlobItem)
    (transport : List String → String → TypedResponseEntry)
    (hb : strTruthy blobContainerName = true)
    (hc : strTruthy connectionString = true) :
    getCacheEntry keys p1 compressionMethod blobContainerName connectionString
        blobListing transport =
      getCacheEntry keys p2 compressionMethod blobContainerName connectionString
        blobListing transport
    ∧ (∀ res effs,
        getCacheEntry keys p1 compressionMethod blobContainerName
          connectionString blobListing transport = Except.ok (res, effs) →
        effs = []) := by
  constructor
  · simp [getCacheEntry, hb, hc, getCacheEntryBlob]
  · intro res effs h
    simp [getCacheEntry, hb, hc] at h
    exact h.2

/-- C9 witness: the theorem applied at a concrete blob configuration and
two different path lists. -/
theorem getCacheEntry_blob_path_ignores_paths_witness :
    strTruthy (some "cont") = true
    ∧ getCacheEntry ["k"] ["/a"] none (some "cont") (some "conn") []
        (fun _ _ => { statusCode := 204, result := none }) =
      getCacheEntry ["k"] ["/b"] none (some "cont") (some "conn") []
        (fun _ _ => { statusCode := 204, result := none }) :=
  ⟨rfl, (getCacheEntry_blob_path_ignores_paths ["k"] ["/a"] ["/b"] none
    (some "cont") (some "conn") []
    (fun _ _ => { statusCode := 204, result := none }) rfl rfl).1⟩

/-- C6: for the HTTP lookup (no blob-storage configuration), when the cache
service answers `r`: the lookup returns null exactly on a 204 (and then
registers no secret); any other non-success status raises; a success
response with no (or an empty) archive download location raises
`Cache not found.`; and a success response with a download location returns
the entry with that URL registered as a secret. -/
theorem getCacheEntry_http_response_semantics (keys paths : List String)
    (compressionMethod : Option CompressionMethod)
    (blobListing : List BlobItem) (r : TypedResponseEntry) :
    ((∃ effs, getCacheEntry keys paths compressionMethod none none blobListing
        (fun _ _ => r) = Except.ok (none, effs)) ↔ r.statusCode = 204)
    ∧ (r.statusCode = 204 →
        getCacheEntry keys paths compressionMethod none none blobListing
          (fun _ _ => r) = Except.ok (none, []))
    ∧ (r.statusCode ≠ 204 → isSuccessStatusCode r.statusCode = false →
        getCacheEntry keys paths compressionMethod none none blobListing
          (fun _ _ => r) =
          Except.error ("Cache service responded with " ++ toString r.statusCode))
    ∧ (r.statusCode ≠ 204 → isSuccessStatusCode r.statusCode = true →
        archiveLocationFalsy r.result = true →
        getCacheEntry keys paths compressionMethod none none blobListing
          (fun _ _ => r) = Except.error "Cache not found.")
    ∧ (∀ entry url, r.statusCode ≠ 204 → isSuccessStatusCode r.statusCode = true →
        r.result = some entry → entry.archiveLocation = some url → url ≠ "" →
        getCacheEntry keys paths compressionMethod none none blobListing
          (fun _ _ => r) =
          Except.ok (some entry, [Effect.setSecret url])) := by
  have hE : getCacheEntry keys paths compressionMethod none none blobListing
      (fun _ _ => r) = processGetCacheEntryResponse r := rfl
  rw [hE]
  refine ⟨?_, ?_, ?_, ?_, ?_⟩
  · constructor
    · rintro ⟨effs, h⟩
      by_contra h204
      by_cases hs : isSuccessStatusCode r.statusCode = true
      · by_cases hfal : archiveLocationFalsy r.result = true
        · simp [processGetCacheEntryResponse, h204, hs, hfal] at h
        · obtain ⟨url, hurl⟩ : ∃ url,
              r.result.bind ArtifactCacheEntry.archiveLocation = some url := by
            cases hu : r.result.bind ArtifactCacheEntry.archiveLocation with
            | none => exact absurd (by simp [archiveLocationFalsy, hu]) hfal
            | some u => exact ⟨u, rfl⟩
          obtain ⟨entry, hentry⟩ : ∃ e, r.result = some e := by
            cases hr : r.result with
            | none => rw [hr] at hurl; simp at hurl
            | some e => exact ⟨e, rfl⟩
          have hloc : entry.archiveLocation = some url := by
            rw [hentry] at hurl
            simpa using hurl
          have hfalS : archiveLocationFalsy (some entry) = false := by
            rw [← hentry]
            simpa using hfal
          simp [processGetCacheEntryResponse, h204, hs, hentry, hfalS, hloc] at h
      · have hs' : isSuccessStatusCode r.statusCode = false := by simpa using hs
        simp [processGetCacheEntryResponse, h204, hs'] at h
    · intro h204
      exact ⟨[], by simp [processGetCacheEntryResponse, h204]⟩
  · intro h204
    simp [processGetCacheEntryResponse, h204]
  · intro h204 hs
    simp [processGetCacheEntryResponse, h204, hs]
  · intro h204 hs hfal
    simp [processGetCacheEntryResponse, h204, hs, hfal]
  · intro entry url h204 hs hres hloc hne
    have hfal0 : url.isEmpty = false := by
      cases hie : url.isEmpty
      · rfl
      · exact absurd ((String.isEmpty_iff url).mp hie) hne
    have hfalS : archiveLocationFalsy (some entry) = false := by
      simp [archiveLocationFalsy, hloc, hfal0]
    simp [processGetCacheEntryResponse, h204, hs, hres, hfalS, hloc]

/-- C6 witness: a 200 response carrying a download URL returns the entry
and registers the URL as a secret. -/
theorem getCacheEntry_http_response_semantics_witness :
    getCacheEntry ["k"] ["/p"] none none none []
        (fun _ _ => ⟨200, some ⟨some "k", some "https://example.com/a", none⟩⟩) =
      Except.ok (some ⟨some "k", some "https://example.com/a", none⟩,
        [Effect.setSecret "https://example.com/a"]) :=
  (getCacheEntry_http_response_semantics ["k"] ["/p"] none []
      ⟨200, some ⟨some "k", some "https://example.com/a", none⟩⟩).2.2.2.2
    ⟨some "k", some "https://example.com/a", none⟩
    "https://example.com/a" (by decide) rfl rfl rfl (by decide)

/-- The chunking loop, fully characterized: starting at `offset` with
enough fuel, it emits one range per chunk index, each `maxChunkSize` apart,
the last clipped to the file end. -/
theorem chunkRangesGo_spec (F C : Nat) (hC : 0 < C) :
    ∀ fuel offset, F ≤ offset + fuel * C →
      chunkRangesGo fuel F C offset =
        (List.range ((F - offset + C - 1) / C)).map
          (fun i => (offset + i * C, min (offset + (i + 1) * C) F - 1)) := by
  intro fuel
  induction fuel with
  | zero =>
    intro offset h
    have h' : F ≤ offset := by simpa using h
    have h0 : F - offset = 0 := by omega
    rw [h0]
    have hdiv : (0 + C - 1) / C = 0 := Nat.div_eq_of_lt (by omega)
    rw [hdiv]
    rfl
  | succ fuel ih =>
    intro offset h
    by_cases hof : offset < F
    · have hcount : (F - offset + C - 1) / C
          = (F - (offset + C) + C - 1) / C + 1 := by
        by_cases hd : F - offset ≤ C
        · have h1 : F - (offset + C) = 0 := by omega
          rw [h1]
          have h2 : (0 + C - 1) / C = 0 := Nat.div_eq_of_lt (by omega)
          rw [h2]
          have hlt : (F - offset + C - 1) / C < 2 := by
            rw [Nat.div_lt_iff_lt_mul hC]
            omega
          have hge : 1 ≤ (F - offset + C - 1) / C := by
            rw [Nat.le_div_iff_mul_le hC]
            omega
          omega
        · have heq : F - offset + C - 1 = (F - (offset + C) + C - 1) + C := by
            omega
          rw [heq, Nat.add_div_right _ hC]
      have hfuel : F ≤ offset + C + fuel * C := by
        have he : (fuel + 1) * C = fuel * C + C := add_one_mul fuel C
        omega
      simp only [chunkRangesGo]
      rw [if_pos hof, ih (offset + C) hfuel, hcount, List.range_succ_eq_map]
      simp only [List.map_cons, List.map_map]
      congr 1
      · have he : (0 + 1) * C = C := by omega
        simp only [Nat.zero_mul, Nat.add_zero, he, Prod.mk.injEq]
        constructor
        · trivial
        · omega
      · congr 1
        funext i
        simp only [Function.comp_apply, Nat.succ_eq_add_one, Prod.mk.injEq]
        have h1 : (i + 1) * C = i * C + C := add_one_mul i C
        have h2 : (i + 1 + 1) * C = (i + 1) * C + C := add_one_mul (i + 1) C
        constructor
        · omega
        · congr 1
          omega
    · simp only [chunkRangesGo]
      rw [if_neg hof]
      have h0 : F - offset = 0 := by omega
      rw [h0]
      have hdiv : (0 + C - 1) / C = 0 := Nat.div_eq_of_lt (by omega)
      rw [hdiv]
      rfl

/-- The chunk ranges of `uploadFile` in closed form. -/
theorem chunkRanges_eq (F C : Nat) (hC : 0 < C) :
    chunkRanges F C = (List.range ((F + C - 1) / C)).map
      (fun i => (i * C, min ((i + 1) * C) F - 1)) := by
  have hFC : F ≤ 0 + F * C := by
    have h1 : F * 1 ≤ F * C := Nat.mul_le_mul_left F hC
    omega
  have h := chunkRangesGo_spec F C hC F 0 hFC
  unfold chunkRanges
  rw [h]
  simp only [Nat.sub_zero, Nat.zero_add]

/-- A chunk index is in range exactly when its start offset is inside the
file. -/
theorem lt_chunkCount_iff (F C i : Nat) (hC : 0 < C) :
    i < (F + C - 1) / C ↔ i * C < F := by
  rw [Nat.lt_iff_add_one_le, Nat.le_div_iff_mul_le hC, add_one_mul]
  omega

/-- C3: for a file of `F` bytes and chunk size `C > 0`, the non-blob
`uploadFile` issues exactly `⌈F/C⌉` chunk uploads — `(F + C - 1) / C` in
natural division — whose inclusive ranges are contiguous, each nonempty of
length at most `C`, and whose union is exactly `[0, F-1]`; a zero-byte file
yields zero chunks. -/
theorem uploadFile_chunk_partition (F C : Nat) (hC : 0 < C) :
    (chunkRanges F C).length = (F + C - 1) / C
    ∧ (F = 0 → chunkRanges F C = [])
    ∧ (∀ i, i + 1 < (chunkRanges F C).length →
        ((chunkRanges F C)[i + 1]?).map Prod.fst =
          ((chunkRanges F C)[i]?).map (fun r => r.2 + 1))
    ∧ (∀ r ∈ chunkRanges F C, r.1 ≤ r.2 ∧ r.2 + 1 - r.1 ≤ C)
    ∧ (∀ b, b < F ↔ ∃ r ∈ chunkRanges F C, r.1 ≤ b ∧ b ≤ r.2) := by
  rw [chunkRanges_eq F C hC]
  refine ⟨by simp, ?_, ?_, ?_, ?_⟩
  · rintro rfl
    have hdiv : (0 + C - 1) / C = 0 := Nat.div_eq_of_lt (by omega)
    rw [hdiv]
    rfl
  · intro i hi
    simp only [List.length_map, List.length_range] at hi
    have hi0 : i < (F + C - 1) / C := by omega
    rw [List.getElem?_map, List.getElem?_map, List.getElem?_range hi,
      List.getElem?_range hi0]
    have hlt : (i + 1) * C < F := (lt_chunkCount_iff F C (i + 1) hC).mp hi
    have h1 : (i + 1) * C = i * C + C := add_one_mul i C
    simp only [Option.map_some']
    congr 1
    omega
  · intro r hr
    simp only [List.mem_map, List.mem_range] at hr
    obtain ⟨i, hi, rfl⟩ := hr
    have hlt : i * C < F := (lt_chunkCount_iff F C i hC).mp hi
    have h1 : (i + 1) * C = i * C + C := add_one_mul i C
    constructor <;> omega
  · intro b
    constructor
    · intro hb
      have hmem : b / C < (F + C - 1) / C :=
        (lt_chunkCount_iff F C (b / C) hC).mpr (by
          have h1 : b / C * C ≤ b := Nat.div_mul_le_self b C
          omega)
      refine ⟨(b / C * C, min ((b / C + 1) * C) F - 1), ?_, ?_, ?_⟩
      · simp only [List.mem_map, List.mem_range]
        exact ⟨b / C, hmem, rfl⟩
      · exact Nat.div_mul_le_self b C
      · have h2 : b < b / C * C + C := Nat.lt_div_mul_add hC
        have h1 : (b / C + 1) * C = b / C * C + C := add_one_mul (b / C) C
        omega
    · rintro ⟨r, hr, hb1, hb2⟩
      simp only [List.mem_map, List.mem_range] at hr
      obtain ⟨i, hi, rfl⟩ := hr
      have hlt : i * C < F := (lt_chunkCount_iff F C i hC).mp hi
      have h1 : (i + 1) * C = i * C + C := add_one_mul i C
      simp only at hb1 hb2
      omega

/-- C3 witness: the partition of a 10-byte file into 4-byte chunks. -/
theorem uploadFile_chunk_partition_witness :
    0 < 4 ∧ (chunkRanges 10 4).length = (10 + 4 - 1) / 4 :=
  ⟨by decide, (uploadFile_chunk_partition 10 4 (by decide)).1⟩

/-- `runChunkUploads` only ever emits chunk-upload events, never a commit. -/
theorem runChunkUploads_no_commit (cs : Nat → Nat) :
    ∀ (ranges : List (Nat × Nat)) (i sz st : Nat),
      CacheEvent.commit sz st ∉ (runChunkUploads cs ranges i).1 := by
  intro ranges
  induction ranges with
  | nil =>
    intro i sz st
    simp [runChunkUploads]
  | cons r rest ih =>
    intro i sz st
    obtain ⟨s, e⟩ := r
    by_cases h : isSuccessStatusCode (cs i) = true
    · simp only [runChunkUploads, h, if_true, List.mem_cons]
      rintro (hcon | hmem)
      · cases hcon
      · exact ih (i + 1) sz st hmem
    · simp [runChunkUploads, h]

/-- The chunk-upload pass succeeds exactly when every chunk's post-retry
status is a success. -/
theorem runChunkUploads_ok_iff (cs : Nat → Nat) :
    ∀ (ranges : List (Nat × Nat)) (i : Nat),
      (runChunkUploads cs ranges i).2 = Except.ok () ↔
        ∀ j, j < ranges.length → isSuccessStatusCode (cs (i + j)) = true := by
  intro ranges
  induction ranges with
  | nil =>
    intro i
    simp [runChunkUploads]
  | cons r rest ih =>
    intro i
    obtain ⟨s, e⟩ := r
    by_cases h : isSuccessStatusCode (cs i) = true
    · simp only [runChunkUploads, h, if_true, List.length_cons]
      rw [ih (i + 1)]
      constructor
      · intro hall j hj
        cases j with
        | zero => simpa using h
        | succ j' =>
          have heq : i + (j' + 1) = i + 1 + j' := by omega
          rw [heq]
          exact hall j' (by omega)
      · intro hall j hj
        have heq : i + 1 + j = i + (j + 1) := by omega
        rw [heq]
        exact hall (j + 1) (by omega)
    · simp only [runChunkUploads, h, if_false]
      constructor
      · intro hcon
        cases hcon
      · intro hall
        exact absurd (by simpa using hall 0 (by simp)) h

/-- When every chunk status is a success, the chunk-upload pass issues one
upload per range, in order, recording each range and its status. -/
theorem runChunkUploads_events_of_ok (cs : Nat → Nat) :
    ∀ (ranges : List (Nat × Nat)) (i : Nat),
      (∀ j, j < ranges.length → isSuccessStatusCode (cs (i + j)) = true) →
      (runChunkUploads cs ranges i).1 =
        (ranges.enumFrom i).map
          (fun p => CacheEvent.chunkUpload p.2.1 p.2.2 (cs p.1)) := by
  intro ranges
  induction ranges with
  | nil =>
    intro i _
    simp [runChunkUploads]
  | cons r rest ih =>
    intro i hall
    obtain ⟨s, e⟩ := r
    have h0 : isSuccessStatusCode (cs i) = true := by
      simpa using hall 0 (by simp)
    simp only [runChunkUploads, h0, if_true, List.enumFrom, List.map_cons]
    congr 1
    exact ih (i + 1) (fun j hj => by
      have heq : i + 1 + j = i + (j + 1) := by omega
      rw [heq]
      exact hall (j + 1) (by simpa using Nat.succ_lt_succ hj))

/-- C7: on the chunked (non-blob) path of `saveCache`, a commit call
appears in the trace exactly when every chunk upload was acknowledged with
a success status; in that case the trace is the full ordered list of chunk
uploads followed by the single commit, and if any chunk's post-retry status
is a non-success the save fails with an error and no commit call is ever
issued. -/
theorem saveCache_commit_only_after_acked_chunks (F C : Nat) (hC : 0 < C)
    (chunkStatus : Nat → Nat) (commitStatus : Nat) (key : String)
    (blobContainerName connectionString : Option String)
    (blobResult : Except String Unit)
    (hcfg : (strTruthy blobContainerName && strTruthy connectionString) = false) :
    ((∃ sz st, CacheEvent.commit sz st ∈
        (saveCacheRun F C chunkStatus commitStatus key blobContainerName
          connectionString blobResult).1) ↔
      ∀ j, j < (F + C - 1) / C → isSuccessStatusCode (chunkStatus j) = true)
    ∧ ((∀ j, j < (F + C - 1) / C → isSuccessStatusCode (chunkStatus j) = true) →
        (saveCacheRun F C chunkStatus commitStatus key blobContainerName
          connectionString blobResult).1 =
          ((chunkRanges F C).enumFrom 0).map
            (fun p => CacheEvent.chunkUpload p.2.1 p.2.2 (chunkStatus p.1))
          ++ [CacheEvent.commit F commitStatus])
    ∧ ((∃ j, j < (F + C - 1) / C ∧ isSuccessStatusCode (chunkStatus j) = false) →
        (∀ sz st, CacheEvent.commit sz st ∉
          (saveCacheRun F C chunkStatus commitStatus key blobContainerName
            connectionString blobResult).1)
        ∧ ∃ msg, (saveCacheRun F C chunkStatus commitStatus key blobContainerName
            connectionString blobResult).2 = Except.error msg) := by
  have hlen : (chunkRanges F C).length = (F + C - 1) / C := by
    rw [chunkRanges_eq F C hC]
    simp
  have hup : uploadFileRun F C chunkStatus key blobContainerName
      connectionString blobResult
      = runChunkUploads chunkStatus (chunkRanges F C) 0 := by
    simp [uploadFileRun, hcfg]
  cases hres : (runChunkUploads chunkStatus (chunkRanges F C) 0).2 with
  | error e =>
    have hnall : ¬ ∀ j, j < (F + C - 1) / C →
        isSuccessStatusCode (chunkStatus j) = true := by
      intro hall
      have hok : (runChunkUploads chunkStatus (chunkRanges F C) 0).2
          = Except.ok () :=
        (runChunkUploads_ok_iff chunkStatus (chunkRanges F C) 0).mpr (by
          intro j hj
          simpa using hall j (hlen ▸ hj))
      rw [hres] at hok
      cases hok
    have hsave1 : (saveCacheRun F C chunkStatus commitStatus key
        blobContainerName connectionString blobResult).1
        = (runChunkUploads chunkStatus (chunkRanges F C) 0).1 := by
      simp [saveCacheRun, hup, hres]
    have hsave2 : (saveCacheRun F C chunkStatus commitStatus key
        blobContainerName connectionString blobResult).2 = Except.error e := by
      simp [saveCacheRun, hup, hres]
    refine ⟨⟨?_, ?_⟩, ?_, ?_⟩
    · rintro ⟨sz, st, hmem⟩
      rw [hsave1] at hmem
      exact absurd hmem (runChunkUploads_no_commit chunkStatus
        (chunkRanges F C) 0 sz st)
    · intro hall
      exact absurd hall hnall
    · intro hall
      exact absurd hall hnall
    · intro _
      refine ⟨?_, ⟨e, hsave2⟩⟩
      intro sz st hmem
      rw [hsave1] at hmem
      exact runChunkUploads_no_commit chunkStatus (chunkRanges F C) 0 sz st hmem
  | ok u =>
    cases u
    have hall0 := (runChunkUploads_ok_iff chunkStatus (chunkRanges F C) 0).mp hres
    have hall : ∀ j, j < (F + C - 1) / C →
        isSuccessStatusCode (chunkStatus j) = true := by
      intro j hj
      have hj' : j < (chunkRanges F C).length := by
        rw [hlen]
        exact hj
      simpa using hall0 j hj'
    have hevs : (saveCacheRun F C chunkStatus commitStatus key
        blobContainerName connectionString blobResult).1
        = (runChunkUploads chunkStatus (chunkRanges F C) 0).1
          ++ [CacheEvent.commit F commitStatus] := by
      by_cases hcs : isSuccessStatusCode commitStatus = true <;>
        simp [saveCacheRun, hup, hres, hcs]
    have hrun1 : (runChunkUploads chunkStatus (chunkRanges F C) 0).1
        = ((chunkRanges F C).enumFrom 0).map
          (fun p => CacheEvent.chunkUpload p.2.1 p.2.2 (chunkStatus p.1)) := by
      rw [runChunkUploads_events_of_ok chunkStatus (chunkRanges F C) 0 hall0]
    refine ⟨⟨?_, ?_⟩, ?_, ?_⟩
    · intro _
      exact hall
    · intro _
      refine ⟨F, commitStatus, ?_⟩
      rw [hevs]
      simp
    · intro _
      rw [hevs, hrun1]
    · rintro ⟨j, hj, hfail⟩
      rw [hall j hj] at hfail
      cases hfail

/-- C7 witness: a 10-byte file in 4-byte chunks with every upload and the
commit acknowledged 200 produces the three chunk uploads followed by the
commit. -/
theorem saveCache_commit_only_after_acked_chunks_witness :
    (saveCacheRun 10 4 (fun _ => 200) 200 "k" none none (Except.ok ())).1 =
      [CacheEvent.chunkUpload 0 3 200, CacheEvent.chunkUpload 4 7 200,
       CacheEvent.chunkUpload 8 9 200, CacheEvent.commit 10 200] :=
  ((saveCache_commit_only_after_acked_chunks 10 4 (by decide) (fun _ => 200)
      200 "k" none none (Except.ok ()) rfl).2.1
    (fun _ _ => rfl)).trans (by decide)
